import Mathlib

/-!
# Verification of the gist-backup download pipeline

A shallow embedding of the `github` package of `gist-backup`
(`cmd.go`): the `Client`, its request construction, `GetGistsForUser`,
`DownloadGist` and `DownloadAllGistsForUser`, together with a model of
the filesystem the orchestrator writes to and of the remote HTTP world
the client queries.  HTTP responses are abstracted at the level the Go
code observes them: a round trip either fails with an error value
(`httpClient.Do` or the JSON decoder failing), returns a non-200 status,
or returns a 200 response whose body decoded to a typed value.
-/

set_option maxHeartbeats 1000000

/-- Go `error` values as the program produces and propagates them: a plain
message (library errors, or `fmt.Errorf` with only string verbs) or an error
wrapped with a context message (`fmt.Errorf` with `%w`). -/
inductive GoError where
  | msg (s : String)
  | wrap (context : String) (inner : GoError)
deriving DecidableEq

/-- What the calling Go code observes from one HTTP round trip plus decoding:
`err e` models `httpClient.Do` failing, or `json.Decode` / `io.Copy` failing
(the Go code returns these error values unchanged); `httpError st` models a
response with `StatusCode != http.StatusOK`, carrying the `resp.Status` text;
`ok v` models a 200 response whose body decoded to `v`. -/
inductive ApiResult (α : Type) where
  | err (e : GoError)
  | httpError (status : String)
  | ok (value : α)
deriving DecidableEq

/-- An outgoing HTTP request as built by the Go code: method, URL and the
headers set on it. -/
structure HttpRequest where
  method : String
  url : String
  headers : List (String × String)
deriving DecidableEq

/-- The conditional `Authorization` header: cmd.go sets
`Authorization: token <token>` exactly when `c.token != ""`
(lines 132-134, 171-173, 217-219). -/
def authHeaders (token : String) : List (String × String) :=
  if token ≠ "" then [("Authorization", "token " ++ token)] else []

/-- The request built by `GetGistsForUser` (cmd.go lines 125-135):
GET on the user's gists collection, with the conditional `Authorization`
header and `Accept: application/vnd.github+json`. -/
def buildListRequest (token username : String) : HttpRequest :=
  { method := "GET"
    url := "https://api.github.com/users/" ++ username ++ "/gists"
    headers := authHeaders token ++ [("Accept", "application/vnd.github+json")] }

/-- The request built by `DownloadGist` for the single-gist record
(cmd.go lines 164-174): GET on the gist resource, with the conditional
`Authorization` header and `Accept: application/vnd.github+json`. -/
def buildGistRequest (token gistID : String) : HttpRequest :=
  { method := "GET"
    url := "https://api.github.com/gists/" ++ gistID
    headers := authHeaders token ++ [("Accept", "application/vnd.github+json")] }

/-- The per-file raw-content request built by `DownloadGist`
(cmd.go lines 212-219): GET on the file's raw URL.  Only the conditional
`Authorization` header is set on it; the Go code sets no `Accept` header
here. -/
def buildRawFileRequest (token rawURL : String) : HttpRequest :=
  { method := "GET"
    url := rawURL
    headers := authHeaders token }

/-- The value of a named header on a request, if set. -/
def headerVal (name : String) (req : HttpRequest) : Option String :=
  (req.headers.find? (fun h => h.1 == name)).map (fun h => h.2)

/-- `GistFile` (cmd.go lines 90-97): one file record inside a gist's file
mapping. -/
structure GistFile where
  filename : String
  type : String
  language : String
  rawURL : String
  size : Nat
  content : String
deriving DecidableEq

/-- `Gist` (cmd.go lines 78-87).  The `files` JSON object is kept here as the
list of its entries in API response order; Go decodes it into a
`map[string]GistFile`, whose keys (the filenames) are unique and whose
iteration order is unspecified.  The two `time.Time` fields are kept as their
textual form. -/
structure Gist where
  id : String
  description : String
  public : Bool
  files : List (String × GistFile)
  createdAt : String
  updatedAt : String
  url : String
  htmlURL : String
deriving DecidableEq

/-- The injected `HTTPClient` (cmd.go lines 99-101).  Its `Do` behaviour is
supplied separately by a `World`; only the configuration the program sets on
the default client is recorded. -/
structure HTTPClientModel where
  timeoutSeconds : Nat
deriving DecidableEq

/-- `Client` (cmd.go lines 104-107). -/
structure Client where
  token : String
  httpClient : HTTPClientModel
deriving DecidableEq

/-- `NewClient` (cmd.go lines 110-119): when `httpClient` is nil it
substitutes `&http.Client{Timeout: 30 * time.Second}`. -/
def NewClient (token : String) (httpClient : Option HTTPClientModel) : Client :=
  match httpClient with
  | none => { token := token, httpClient := { timeoutSeconds := 30 } }
  | some hc => { token := token, httpClient := hc }

/-- The remote world the client talks to: for each request, what the round
trip (including decoding) yields.  This stands in for `httpClient.Do`
together with the JSON decoding / body reading done at each call site. -/
structure World where
  listGists : HttpRequest → ApiResult (List Gist)
  getGist : HttpRequest → ApiResult Gist
  fetchRaw : HttpRequest → ApiResult (List Nat)

/-- The local filesystem, reduced to what the program touches: the set of
directories created and a finite map from file path to byte content.  Both
are kept as lists sorted strictly by path, a canonical representation, so
that equal trees are equal values. -/
structure FS where
  dirs : List String
  files : List (String × List Nat)
deriving DecidableEq

/-- Sorted-insert of a directory path; inserting a present path is the
identity, matching `os.MkdirAll` on an existing directory. -/
def insertDir (p : String) : List String → List String
  | [] => [p]
  | q :: rest =>
    if p = q then q :: rest
    else if p < q then p :: q :: rest
    else q :: insertDir p rest

/-- Sorted-insert of a file: overwrites the entry at an existing path,
matching `os.WriteFile` / `os.Create` truncating an existing file. -/
def setFile (p : String) (c : List Nat) : List (String × List Nat) → List (String × List Nat)
  | [] => [(p, c)]
  | (q, d) :: rest =>
    if p = q then (p, c) :: rest
    else if p < q then (p, c) :: (q, d) :: rest
    else (q, d) :: setFile p c rest

/-- Lookup of a file's content by path. -/
def lookupFile (p : String) : List (String × List Nat) → Option (List Nat)
  | [] => none
  | (q, c) :: rest => if p = q then some c else lookupFile p rest

/-- `os.MkdirAll(p, 0755)` on the model filesystem. -/
def FS.mkdirAll (fs : FS) (p : String) : FS :=
  { fs with dirs := insertDir p fs.dirs }

/-- Writing a whole file (`os.WriteFile`, or `os.Create` + `io.Copy`). -/
def FS.writeFile (fs : FS) (p : String) (c : List Nat) : FS :=
  { fs with files := setFile p c fs.files }

/-- Reading a file's content back from the model filesystem. -/
def FS.read (fs : FS) (p : String) : Option (List Nat) :=
  lookupFile p fs.files

/-- The empty filesystem. -/
def emptyFS : FS := { dirs := [], files := [] }

/-- The bytes of a string, for file contents produced from in-memory
strings. -/
def strBytes (s : String) : List Nat := s.data.map Char.toNat

/-- A JSON string literal (escaping abstracted). -/
def jstr (s : String) : String := "\"" ++ s ++ "\""

/-- Insertion into a filename-sorted list of file-mapping entries. -/
def insFileEntry (e : String × GistFile) : List (String × GistFile) → List (String × GistFile)
  | [] => [e]
  | f :: rest => if e.1 ≤ f.1 then e :: f :: rest else f :: insFileEntry e rest

/-- The file-mapping entries sorted by filename, as Go's `json.Marshal`
sorts the keys of a map. -/
def sortFileEntries (l : List (String × GistFile)) : List (String × GistFile) :=
  l.foldr insFileEntry []

/-- One serialized entry of the `files` object. -/
def marshalFile (kv : String × GistFile) : String :=
  jstr kv.1 ++ ": \x7b" ++
    "\"filename\": " ++ jstr kv.2.filename ++ ", " ++
    "\"type\": " ++ jstr kv.2.type ++ ", " ++
    "\"language\": " ++ jstr kv.2.language ++ ", " ++
    "\"raw_url\": " ++ jstr kv.2.rawURL ++ ", " ++
    "\"size\": " ++ toString kv.2.size ++ ", " ++
    "\"content\": " ++ jstr kv.2.content ++ "\x7d"

/-- The serialized entries of the `files` object, comma-separated. -/
def marshalFiles : List (String × GistFile) → String
  | [] => ""
  | [e] => marshalFile e
  | e :: rest => marshalFile e ++ ", " ++ marshalFiles rest

/-- Models `json.MarshalIndent(gist, "", "  ")` (cmd.go line 198): a
deterministic JSON rendering of the full gist record.  Go serializes struct
fields in declaration order and sorts the keys of the `Files` map; string
escaping and Go's exact indentation are abstracted — the claims depend only
on this being a deterministic function of the gist record. -/
def marshalGist (g : Gist) : String :=
  "\x7b" ++
    "\"id\": " ++ jstr g.id ++ ", " ++
    "\"description\": " ++ jstr g.description ++ ", " ++
    "\"public\": " ++ (if g.public then "true" else "false") ++ ", " ++
    "\"files\": \x7b" ++ marshalFiles (sortFileEntries g.files) ++ "\x7d, " ++
    "\"created_at\": " ++ jstr g.createdAt ++ ", " ++
    "\"updated_at\": " ++ jstr g.updatedAt ++ ", " ++
    "\"url\": " ++ jstr g.url ++ ", " ++
    "\"html_url\": " ++ jstr g.htmlURL ++
  "\x7d"

/-- `GetGistsForUser` (cmd.go lines 122-155): build the list request, run it,
fail on a `Do` error unchanged, fail on a non-200 status with
`"GitHub API error: %s"`, fail on a decode error unchanged, otherwise return
the decoded gists. -/
def GetGistsForUser (c : Client) (w : World) (username : String) :
    Except GoError (List Gist) :=
  match w.listGists (buildListRequest c.token username) with
  | .err e => .error e
  | .httpError st => .error (.msg ("GitHub API error: " ++ st))
  | .ok gists => .ok gists

/-- The outcome of `DownloadGist`: the filesystem after the call, the file
paths written in order (the write trace), and the returned error, if any. -/
structure DLResult where
  fs : FS
  written : List String
  err : Option GoError
deriving DecidableEq

/-- The per-file loop of `DownloadGist` (cmd.go lines 208-244).  `entries`
is the sequence in which `range gist.Files` visits the decoded map — some
unspecified permutation of the mapping.  For each entry: build the raw
request, run it, fail on a `Do` error unchanged, fail on a non-200 status
with `"Failed to download file %s: %s"`, otherwise write the body verbatim
to `gistDir/filename` and continue. -/
def downloadFiles (c : Client) (w : World) (gistDir : String) :
    List (String × GistFile) → FS → DLResult
  | [], fs => { fs := fs, written := [], err := none }
  | (filename, file) :: rest, fs =>
    match w.fetchRaw (buildRawFileRequest c.token file.rawURL) with
    | .err e => { fs := fs, written := [], err := some e }
    | .httpError st =>
      { fs := fs, written := []
        err := some (.msg ("Failed to download file " ++ filename ++ ": " ++ st)) }
    | .ok bytes =>
      let filePath := gistDir ++ "/" ++ filename
      let r := downloadFiles c w gistDir rest (fs.writeFile filePath bytes)
      { r with written := filePath :: r.written }

/-- `DownloadGist` (cmd.go lines 158-247): ensure `directory` exists, fetch
the gist record (errors as in `GetGistsForUser`), create
`directory/gistID`, write `metadata.json` with the indented serialization of
the record, then download each file of the mapping in the map's iteration
order `ord gist.files`. -/
def DownloadGist (c : Client) (w : World)
    (ord : List (String × GistFile) → List (String × GistFile))
    (gistID directory : String) (fs : FS) : DLResult :=
  let fs1 := fs.mkdirAll directory
  match w.getGist (buildGistRequest c.token gistID) with
  | .err e => { fs := fs1, written := [], err := some e }
  | .httpError st =>
    { fs := fs1, written := [], err := some (.msg ("GitHub API error: " ++ st)) }
  | .ok gist =>
    let gistDir := directory ++ "/" ++ gistID
    let fs2 := fs1.mkdirAll gistDir
    let metaPath := gistDir ++ "/" ++ "metadata.json"
    let fs3 := fs2.writeFile metaPath (strBytes (marshalGist gist))
    let r := downloadFiles c w gistDir (ord gist.files) fs3
    { r with written := metaPath :: r.written }

/-- The per-gist loop of `DownloadAllGistsForUser` (cmd.go lines 264-269):
download each listed gist in order into `userDir`; on the first failure stop
and return `fmt.Errorf("Failed to download gist %s: %w", gist.ID, err)`. -/
def downloadGists (c : Client) (w : World)
    (ord : List (String × GistFile) → List (String × GistFile))
    (userDir : String) : List Gist → FS → FS × Option GoError
  | [], fs => (fs, none)
  | g :: rest, fs =>
    let r := DownloadGist c w ord g.id userDir fs
    match r.err with
    | some e => (r.fs, some (.wrap ("Failed to download gist " ++ g.id) e))
    | none => downloadGists c w ord userDir rest r.fs

/-- `DownloadAllGistsForUser` (cmd.go lines 250-272): list the user's gists
(returning the error unchanged on failure, before touching the filesystem),
create `directory/username`, then download each gist in listed order. -/
def DownloadAllGistsForUser (c : Client) (w : World)
    (ord : List (String × GistFile) → List (String × GistFile))
    (username directory : String) (fs : FS) : FS × Option GoError :=
  match GetGistsForUser c w username with
  | .error e => (fs, some e)
  | .ok gists =>
    let userDir := directory ++ "/" ++ username
    let fs1 := fs.mkdirAll userDir
    downloadGists c w ord userDir gists fs1

/-- Whether an `ApiResult` is a 200 response. -/
def ApiResult.isOk {α : Type} : ApiResult α → Bool
  | .ok _ => true
  | _ => false

/-- The raw bytes the world serves for a file record, via the request
`DownloadGist` builds for it. -/
def served (c : Client) (w : World) (f : GistFile) : ApiResult (List Nat) :=
  w.fetchRaw (buildRawFileRequest c.token f.rawURL)

/-- The body of a 200 response (unused default otherwise). -/
def okBytes {α : Type} (d : α) : ApiResult α → α
  | .ok v => v
  | _ => d

/-- Every raw fetch for the given entries succeeds with a 200. -/
def allOk (c : Client) (w : World) (entries : List (String × GistFile)) : Bool :=
  entries.all (fun e => (served c w e.2).isOk)

/-- The write sequence of the per-file loop on given entries: for each
entry, its target path and the bytes served at its raw URL. -/
def entryWrites (c : Client) (w : World) (gistDir : String)
    (entries : List (String × GistFile)) : List (String × List Nat) :=
  entries.map (fun e => (gistDir ++ "/" ++ e.1, okBytes [] (served c w e.2)))

/-- The target path of a file-mapping entry. -/
def entryPath (gistDir : String) (e : String × GistFile) : String :=
  gistDir ++ "/" ++ e.1

/-- Applying a sequence of whole-file writes, in order. -/
def applyWrites (ws : List (String × List Nat)) (fs : FS) : FS :=
  ws.foldl (fun acc e => acc.writeFile e.1 e.2) fs

/-- The last write to path `p` in a write sequence, if any. -/
def lastWrite (p : String) : List (String × List Nat) → Option (List Nat)
  | [] => none
  | (q, c) :: rest =>
    match lastWrite p rest with
    | some d => some d
    | none => if p = q then some c else none

/-- The files list is strictly sorted by path (hence has no duplicate
paths): the canonical-form invariant of the model filesystem. -/
def FilesSorted (l : List (String × List Nat)) : Prop :=
  l.Pairwise (fun a b => a.1 < b.1)

/-- The dirs list is strictly sorted. -/
def DirsSorted (l : List String) : Prop :=
  l.Pairwise (fun a b => a < b)

/-- Canonical-form invariant for the whole filesystem. -/
def FS.Canonical (fs : FS) : Prop :=
  DirsSorted fs.dirs ∧ FilesSorted fs.files


/-- The gist subdirectory `filepath.Join(directory, gistID)` (cmd.go line
192); paths are joined with a slash (all path segments here are clean,
non-empty names, where `filepath.Join` is plain concatenation). -/
def gistDirOf (directory gistID : String) : String :=
  directory ++ "/" ++ gistID

/-- The metadata file path `filepath.Join(gistDir, "metadata.json")`
(cmd.go line 203). -/
def metaPathOf (directory gistID : String) : String :=
  gistDirOf directory gistID ++ "/" ++ "metadata.json"

/-! ## Concrete test data

A small fixed remote world used to instantiate the theorems: user `alice`
with gists `g1` (files `a.txt`, `b.txt`), `g2` (no files), `g3`
(file `c.txt`), and `gm` (a single file named `metadata.json`). -/

/-- A file record `a.txt`. -/
def fileA : GistFile :=
  { filename := "a.txt", type := "text/plain", language := "Text"
    rawURL := "https://gist.test/raw/a", size := 2, content := "hi" }

/-- A file record `b.txt`. -/
def fileB : GistFile :=
  { filename := "b.txt", type := "text/plain", language := "Text"
    rawURL := "https://gist.test/raw/b", size := 2, content := "yo" }

/-- A file record `c.txt`. -/
def fileC : GistFile :=
  { filename := "c.txt", type := "text/plain", language := "Text"
    rawURL := "https://gist.test/raw/c", size := 1, content := "z" }

/-- A file record whose filename is literally `metadata.json`. -/
def fileM : GistFile :=
  { filename := "metadata.json", type := "application/json", language := "JSON"
    rawURL := "https://gist.test/raw/m", size := 2, content := "[]" }

/-- Gist `g1` with two files, `a.txt` before `b.txt` in the API response. -/
def gistAB : Gist :=
  { id := "g1", description := "two files", public := true
    files := [("a.txt", fileA), ("b.txt", fileB)]
    createdAt := "2024-01-01T00:00:00Z", updatedAt := "2024-01-02T00:00:00Z"
    url := "https://api.github.com/gists/g1"
    htmlURL := "https://gist.github.com/g1" }

/-- Gist `g2` with no files. -/
def gistEmpty : Gist :=
  { id := "g2", description := "empty", public := false
    files := []
    createdAt := "2024-02-01T00:00:00Z", updatedAt := "2024-02-01T00:00:00Z"
    url := "https://api.github.com/gists/g2"
    htmlURL := "https://gist.github.com/g2" }

/-- Gist `g3` with one file. -/
def gistC : Gist :=
  { id := "g3", description := "one file", public := true
    files := [("c.txt", fileC)]
    createdAt := "2024-03-01T00:00:00Z", updatedAt := "2024-03-01T00:00:00Z"
    url := "https://api.github.com/gists/g3"
    htmlURL := "https://gist.github.com/g3" }

/-- Gist `gm` whose only file is named `metadata.json`. -/
def gistMeta : Gist :=
  { id := "gm", description := "collision", public := true
    files := [("metadata.json", fileM)]
    createdAt := "2024-04-01T00:00:00Z", updatedAt := "2024-04-01T00:00:00Z"
    url := "https://api.github.com/gists/gm"
    htmlURL := "https://gist.github.com/gm" }

/-- An anonymous client (no token, default transport). -/
def cAnon : Client := NewClient "" none

/-- The healthy remote world serving the gists above. -/
def wOk : World :=
  { listGists := fun req =>
      if req.url = "https://api.github.com/users/alice/gists" then
        .ok [gistAB, gistEmpty]
      else .err (.msg "no such list url")
    getGist := fun req =>
      if req.url = "https://api.github.com/gists/g1" then .ok gistAB
      else if req.url = "https://api.github.com/gists/g2" then .ok gistEmpty
      else if req.url = "https://api.github.com/gists/g3" then .ok gistC
      else if req.url = "https://api.github.com/gists/gm" then .ok gistMeta
      else .err (.msg "no such gist url")
    fetchRaw := fun req =>
      if req.url = "https://gist.test/raw/a" then .ok [104, 105]
      else if req.url = "https://gist.test/raw/b" then .ok [121, 111]
      else if req.url = "https://gist.test/raw/c" then .ok [122]
      else if req.url = "https://gist.test/raw/m" then .ok [91, 93]
      else .err (.msg "no such raw url") }

/-- A world where the gist-list round trip fails at the transport level. -/
def wListDown : World :=
  { wOk with listGists := fun _ => .err (.msg "dial tcp: connection refused") }

/-- A world like `wOk` except that the detail fetch of gist `g2` answers
with a 500 status, and the listing contains `g1, g2, g3`. -/
def wBadG2 : World :=
  { wOk with
    listGists := fun req =>
      if req.url = "https://api.github.com/users/alice/gists" then
        .ok [gistAB, gistEmpty, gistC]
      else .err (.msg "no such list url")
    getGist := fun req =>
      if req.url = "https://api.github.com/gists/g1" then .ok gistAB
      else if req.url = "https://api.github.com/gists/g2" then
        .httpError "500 Internal Server Error"
      else if req.url = "https://api.github.com/gists/g3" then .ok gistC
      else .err (.msg "no such gist url") }

/-- A world like `wOk` except that the raw fetch of `b.txt` answers with a
404 status. -/
def wBadB : World :=
  { wOk with
    fetchRaw := fun req =>
      if req.url = "https://gist.test/raw/a" then .ok [104, 105]
      else if req.url = "https://gist.test/raw/b" then .httpError "404 Not Found"
      else .err (.msg "no such raw url") }

/-! ## Lemmas about the model filesystem -/

theorem mem_insertDir {a p : String} {l : List String} :
    a ∈ insertDir p l ↔ a = p ∨ a ∈ l := by
  induction l with
  | nil => simp [insertDir]
  | cons q rest ih =>
    rw [insertDir]
    split_ifs with hpq hlt
    · subst hpq; simp
    · simp
    · simp [ih]; tauto

theorem dirsSorted_insertDir (p : String) {l : List String}
    (h : DirsSorted l) : DirsSorted (insertDir p l) := by
  induction l with
  | nil => simp [insertDir, DirsSorted]
  | cons q rest ih =>
    rw [DirsSorted, List.pairwise_cons] at h
    obtain ⟨hq, hrest⟩ := h
    rw [insertDir]
    split_ifs with hpq hlt
    · subst hpq
      exact List.pairwise_cons.mpr ⟨hq, hrest⟩
    · refine List.pairwise_cons.mpr ⟨?_, List.pairwise_cons.mpr ⟨hq, hrest⟩⟩
      intro b hb
      rcases List.mem_cons.mp hb with hb | hb
      · subst hb; exact hlt
      · exact lt_trans hlt (hq b hb)
    · have hqp : q < p := by
        rcases lt_trichotomy p q with h1 | h1 | h1
        · exact absurd h1 hlt
        · exact absurd h1 hpq
        · exact h1
      refine List.pairwise_cons.mpr ⟨?_, ih hrest⟩
      intro b hb
      rcases mem_insertDir.mp hb with hb | hb
      · subst hb; exact hqp
      · exact hq b hb

theorem insertDir_of_mem {p : String} {l : List String}
    (hs : DirsSorted l) (h : p ∈ l) : insertDir p l = l := by
  induction l with
  | nil => cases h
  | cons q rest ih =>
    rw [DirsSorted, List.pairwise_cons] at hs
    obtain ⟨hq, hrest⟩ := hs
    rw [insertDir]
    split_ifs with hpq hlt
    · rfl
    · exfalso
      have hp : p ∈ rest := by
        rcases List.mem_cons.mp h with h1 | h1
        · exact absurd h1 hpq
        · exact h1
      exact lt_asymm hlt (hq p hp)
    · have hp : p ∈ rest := by
        rcases List.mem_cons.mp h with h1 | h1
        · exact absurd h1 hpq
        · exact h1
      rw [ih hrest hp]

theorem lookupFile_cons (x q : String) (d : List Nat)
    (tl : List (String × List Nat)) :
    lookupFile x ((q, d) :: tl) = if x = q then some d else lookupFile x tl :=
  rfl

theorem lookupFile_setFile (x p : String) (c : List Nat)
    (l : List (String × List Nat)) :
    lookupFile x (setFile p c l) = if x = p then some c else lookupFile x l := by
  induction l with
  | nil => rfl
  | cons hd tl ih =>
    obtain ⟨q, d⟩ := hd
    by_cases hpq : p = q
    · subst hpq
      rw [setFile, if_pos rfl, lookupFile_cons, lookupFile_cons]
      by_cases hxp : x = p <;> simp [hxp]
    · by_cases hlt : p < q
      · rw [setFile, if_neg hpq, if_pos hlt]
        rfl
      · rw [setFile, if_neg hpq, if_neg hlt, lookupFile_cons, lookupFile_cons, ih]
        by_cases hxq : x = q
        · subst hxq
          have hxp : ¬ x = p := fun h => hpq h.symm
          simp [hxp]
        · simp [hxq]

theorem mem_setFile {x : String × List Nat} {p : String} {c : List Nat}
    {l : List (String × List Nat)} (h : x ∈ setFile p c l) :
    x = (p, c) ∨ x ∈ l := by
  induction l with
  | nil => simpa [setFile] using h
  | cons hd tl ih =>
    obtain ⟨q, d⟩ := hd
    rw [setFile] at h
    split_ifs at h with hpq hlt
    · rcases List.mem_cons.mp h with h1 | h1
      · left; exact h1
      · right; exact List.mem_cons_of_mem _ h1
    · rcases List.mem_cons.mp h with h1 | h1
      · left; exact h1
      · right; exact h1
    · rcases List.mem_cons.mp h with h1 | h1
      · right; exact List.mem_cons.mpr (Or.inl h1)
      · rcases ih h1 with h2 | h2
        · left; exact h2
        · right; exact List.mem_cons_of_mem _ h2

theorem filesSorted_setFile (p : String) (c : List Nat)
    {l : List (String × List Nat)} (h : FilesSorted l) :
    FilesSorted (setFile p c l) := by
  induction l with
  | nil => simp [setFile, FilesSorted]
  | cons hd tl ih =>
    obtain ⟨q, d⟩ := hd
    rw [FilesSorted, List.pairwise_cons] at h
    obtain ⟨hq, htl⟩ := h
    rw [setFile]
    split_ifs with hpq hlt
    · subst hpq
      exact List.pairwise_cons.mpr ⟨hq, htl⟩
    · refine List.pairwise_cons.mpr ⟨?_, List.pairwise_cons.mpr ⟨hq, htl⟩⟩
      intro b hb
      rcases List.mem_cons.mp hb with hb | hb
      · subst hb; exact hlt
      · exact lt_trans hlt (hq b hb)
    · have hqp : q < p := by
        rcases lt_trichotomy p q with h1 | h1 | h1
        · exact absurd h1 hlt
        · exact absurd h1 hpq
        · exact h1
      refine List.pairwise_cons.mpr ⟨?_, ih htl⟩
      intro b hb
      rcases mem_setFile hb with hb | hb
      · subst hb; exact hqp
      · exact hq b hb

theorem lookupFile_eq_some_mem {p : String} {c : List Nat}
    {l : List (String × List Nat)} (h : lookupFile p l = some c) :
    (p, c) ∈ l := by
  induction l with
  | nil => simp [lookupFile] at h
  | cons hd tl ih =>
    obtain ⟨q, d⟩ := hd
    rw [lookupFile] at h
    split_ifs at h with hpq
    · subst hpq
      cases h
      exact List.mem_cons_self _ _
    · exact List.mem_cons_of_mem _ (ih h)

theorem lookupFile_eq_none_iff {p : String} {l : List (String × List Nat)} :
    lookupFile p l = none ↔ p ∉ l.map Prod.fst := by
  induction l with
  | nil => simp [lookupFile]
  | cons hd tl ih =>
    obtain ⟨q, d⟩ := hd
    rw [lookupFile]
    split_ifs with hpq
    · subst hpq; simp
    · simp [ih, hpq]

theorem lookupFile_eq_some_of_mem {p : String} {c : List Nat}
    {l : List (String × List Nat)} (hn : (l.map Prod.fst).Nodup)
    (hm : (p, c) ∈ l) : lookupFile p l = some c := by
  induction l with
  | nil => cases hm
  | cons hd tl ih =>
    obtain ⟨q, d⟩ := hd
    rw [List.map_cons, List.nodup_cons] at hn
    obtain ⟨hq, htl⟩ := hn
    rw [lookupFile]
    split_ifs with hpq
    · subst hpq
      rcases List.mem_cons.mp hm with h1 | h1
      · cases h1; rfl
      · exfalso
        exact hq (List.mem_map.mpr ⟨(p, c), h1, rfl⟩)
    · rcases List.mem_cons.mp hm with h1 | h1
      · exfalso; exact hpq (congrArg Prod.fst h1)
      · exact ih htl h1

theorem lookupFile_perm {l1 l2 : List (String × List Nat)}
    (hp : l1.Perm l2) (hn : (l1.map Prod.fst).Nodup) (p : String) :
    lookupFile p l1 = lookupFile p l2 := by
  have hn2 : (l2.map Prod.fst).Nodup := (hp.map Prod.fst).nodup_iff.mp hn
  cases h : lookupFile p l1 with
  | none =>
    have h1 : p ∉ l1.map Prod.fst := lookupFile_eq_none_iff.mp h
    have h2 : p ∉ l2.map Prod.fst := fun hc => h1 ((hp.map Prod.fst).mem_iff.mpr hc)
    exact (lookupFile_eq_none_iff.mpr h2).symm
  | some c =>
    have h1 : (p, c) ∈ l2 := hp.mem_iff.mp (lookupFile_eq_some_mem h)
    exact (lookupFile_eq_some_of_mem hn2 h1).symm

theorem filesSorted_ext : ∀ {l1 l2 : List (String × List Nat)},
    FilesSorted l1 → FilesSorted l2 →
    (∀ p, lookupFile p l1 = lookupFile p l2) → l1 = l2 := by
  intro l1
  induction l1 with
  | nil =>
    intro l2 _ _ hlook
    cases l2 with
    | nil => rfl
    | cons b t =>
      obtain ⟨bq, bd⟩ := b
      have hb := hlook bq
      rw [lookupFile_cons, if_pos rfl] at hb
      simp [lookupFile] at hb
  | cons a t ih =>
    intro l2 h1 h2 hlook
    obtain ⟨aq, ad⟩ := a
    cases l2 with
    | nil =>
      have hb := hlook aq
      rw [lookupFile_cons, if_pos rfl] at hb
      simp [lookupFile] at hb
    | cons b t2 =>
      obtain ⟨bq, bd⟩ := b
      rw [FilesSorted, List.pairwise_cons] at h1 h2
      obtain ⟨ha, ht⟩ := h1
      obtain ⟨hb, ht2⟩ := h2
      have keyeq : aq = bq := by
        by_contra hne
        rcases lt_trichotomy aq bq with hlt | heq | hgt
        · have hnone : lookupFile aq ((bq, bd) :: t2) = none := by
            rw [lookupFile_cons, if_neg hne]
            apply lookupFile_eq_none_iff.mpr
            intro hmem
            rcases List.mem_map.mp hmem with ⟨e, he, hfst⟩
            have hlt2 := hb e he
            rw [hfst] at hlt2
            exact absurd hlt (lt_asymm hlt2)
          have hc := hlook aq
          rw [lookupFile_cons, if_pos rfl, hnone] at hc
          cases hc
        · exact hne heq
        · have hne2 : ¬ bq = aq := fun h => hne h.symm
          have hnone : lookupFile bq ((aq, ad) :: t) = none := by
            rw [lookupFile_cons, if_neg hne2]
            apply lookupFile_eq_none_iff.mpr
            intro hmem
            rcases List.mem_map.mp hmem with ⟨e, he, hfst⟩
            have hlt2 := ha e he
            rw [hfst] at hlt2
            exact absurd hgt (lt_asymm hlt2)
          have hc := hlook bq
          rw [hnone, lookupFile_cons, if_pos rfl] at hc
          cases hc
      subst keyeq
      have hcont : ad = bd := by
        have hc := hlook aq
        rw [lookupFile_cons, if_pos rfl, lookupFile_cons, if_pos rfl] at hc
        cases hc
        rfl
      subst hcont
      have htails : ∀ p, lookupFile p t = lookupFile p t2 := by
        intro p
        by_cases hpa : p = aq
        · subst hpa
          have hn1 : lookupFile p t = none := by
            apply lookupFile_eq_none_iff.mpr
            intro hmem
            rcases List.mem_map.mp hmem with ⟨e, he, hfst⟩
            have hlt2 := ha e he
            rw [hfst] at hlt2
            exact lt_irrefl _ hlt2
          have hn2 : lookupFile p t2 = none := by
            apply lookupFile_eq_none_iff.mpr
            intro hmem
            rcases List.mem_map.mp hmem with ⟨e, he, hfst⟩
            have hlt2 := hb e he
            rw [hfst] at hlt2
            exact lt_irrefl _ hlt2
          rw [hn1, hn2]
        · have hc := hlook p
          rw [lookupFile_cons, if_neg hpa, lookupFile_cons, if_neg hpa] at hc
          exact hc
      rw [ih ht ht2 htails]

theorem applyWrites_nil (fs : FS) : applyWrites [] fs = fs := rfl

theorem applyWrites_cons (e : String × List Nat) (ws : List (String × List Nat))
    (fs : FS) : applyWrites (e :: ws) fs = applyWrites ws (fs.writeFile e.1 e.2) :=
  rfl

theorem applyWrites_dirs (ws : List (String × List Nat)) (fs : FS) :
    (applyWrites ws fs).dirs = fs.dirs := by
  induction ws generalizing fs with
  | nil => rfl
  | cons e ws ih => rw [applyWrites_cons, ih]; rfl

theorem read_applyWrites (p : String) (ws : List (String × List Nat)) (fs : FS) :
    (applyWrites ws fs).read p =
      match lastWrite p ws with
      | some c => some c
      | none => fs.read p := by
  induction ws generalizing fs with
  | nil => rfl
  | cons e ws ih =>
    obtain ⟨q, c⟩ := e
    rw [applyWrites_cons, ih]
    cases h : lastWrite p ws with
    | some d => simp [lastWrite, h]
    | none =>
      by_cases hpq : p = q
      · subst hpq
        simp [lastWrite, h, FS.read, FS.writeFile, lookupFile_setFile]
      · simp [lastWrite, h, hpq, FS.read, FS.writeFile, lookupFile_setFile]

theorem canonical_mkdirAll {fs : FS} (p : String) (h : fs.Canonical) :
    (fs.mkdirAll p).Canonical :=
  ⟨dirsSorted_insertDir p h.1, h.2⟩

theorem canonical_writeFile {fs : FS} (p : String) (c : List Nat)
    (h : fs.Canonical) : (fs.writeFile p c).Canonical :=
  ⟨h.1, filesSorted_setFile p c h.2⟩

theorem canonical_applyWrites {fs : FS} (ws : List (String × List Nat))
    (h : fs.Canonical) : (applyWrites ws fs).Canonical := by
  induction ws generalizing fs with
  | nil => exact h
  | cons e ws ih => exact ih (canonical_writeFile e.1 e.2 h)

theorem fs_ext {fs1 fs2 : FS} (h1 : fs1.Canonical) (h2 : fs2.Canonical)
    (hd : fs1.dirs = fs2.dirs) (hf : ∀ p, fs1.read p = fs2.read p) :
    fs1 = fs2 := by
  obtain ⟨d1, f1⟩ := fs1
  obtain ⟨d2, f2⟩ := fs2
  simp only [FS.mk.injEq]
  exact ⟨hd, filesSorted_ext h1.2 h2.2 hf⟩

theorem lastWrite_eq_none_iff {p : String} {ws : List (String × List Nat)} :
    lastWrite p ws = none ↔ p ∉ ws.map Prod.fst := by
  induction ws with
  | nil => simp [lastWrite]
  | cons e ws ih =>
    obtain ⟨q, c⟩ := e
    cases h : lastWrite p ws with
    | some d =>
      have hp : p ∈ ws.map Prod.fst := by
        by_contra hc
        rw [ih.mpr hc] at h
        cases h
      simp [lastWrite, h, hp]
    | none =>
      by_cases hpq : p = q
      · subst hpq
        simp [lastWrite, h, ih.mp h]
      · simp [lastWrite, h, hpq, ih.mp h]

theorem lastWrite_eq_lookupFile {p : String} {ws : List (String × List Nat)}
    (hn : (ws.map Prod.fst).Nodup) : lastWrite p ws = lookupFile p ws := by
  induction ws with
  | nil => rfl
  | cons e ws ih =>
    obtain ⟨q, c⟩ := e
    rw [List.map_cons, List.nodup_cons] at hn
    obtain ⟨hq, hws⟩ := hn
    rw [lookupFile_cons]
    by_cases hpq : p = q
    · subst hpq
      have hnone : lastWrite p ws = none := lastWrite_eq_none_iff.mpr hq
      simp [lastWrite, hnone]
    · have hlw := ih hws
      cases h : lastWrite p ws with
      | some d => simp [lastWrite, h, hpq, ← hlw, h]
      | none => simp [lastWrite, h, hpq, ← hlw, h]

theorem lastWrite_perm {ws1 ws2 : List (String × List Nat)} (hp : ws1.Perm ws2)
    (hn : (ws1.map Prod.fst).Nodup) (p : String) :
    lastWrite p ws1 = lastWrite p ws2 := by
  have hn2 : (ws2.map Prod.fst).Nodup := (hp.map Prod.fst).nodup_iff.mp hn
  rw [lastWrite_eq_lookupFile hn, lastWrite_eq_lookupFile hn2]
  exact lookupFile_perm hp hn p

/-! ## Lemmas about the download pipeline -/

theorem string_append_right_inj (a : String) {x y : String}
    (h : a ++ x = a ++ y) : x = y := by
  have hd : (a ++ x).data = (a ++ y).data := by rw [h]
  rw [String.data_append, String.data_append] at hd
  have hxy : x.data = y.data := List.append_cancel_left hd
  exact String.ext hxy

theorem entryPaths_nodup {dir : String} {l : List (String × GistFile)}
    (hn : (l.map Prod.fst).Nodup) : (l.map (entryPath dir)).Nodup := by
  have hmap : l.map (entryPath dir)
      = (l.map Prod.fst).map (fun s => dir ++ "/" ++ s) := by
    simp [entryPath, Function.comp]
  rw [hmap]
  exact List.Nodup.map (fun x y h => string_append_right_inj (dir ++ "/") h) hn

theorem entryWrites_keys (c : Client) (w : World) (gistDir : String)
    (entries : List (String × GistFile)) :
    (entryWrites c w gistDir entries).map Prod.fst
      = entries.map (entryPath gistDir) := by
  simp [entryWrites, entryPath, Function.comp]

theorem downloadFiles_dirs (c : Client) (w : World) (dir : String)
    (entries : List (String × GistFile)) (fs : FS) :
    (downloadFiles c w dir entries fs).fs.dirs = fs.dirs := by
  induction entries generalizing fs with
  | nil => rfl
  | cons e rest ih =>
    obtain ⟨fn, f⟩ := e
    cases h : w.fetchRaw (buildRawFileRequest c.token f.rawURL) <;>
      simp [downloadFiles, h, FS.writeFile, ih]

theorem downloadFiles_spec (c : Client) (w : World) (dir : String) :
    ∀ (entries : List (String × GistFile)) (fs : FS),
    allOk c w entries = true →
    downloadFiles c w dir entries fs =
      { fs := applyWrites (entryWrites c w dir entries) fs
        written := entries.map (entryPath dir)
        err := none } := by
  intro entries
  induction entries with
  | nil => intro fs _; rfl
  | cons e rest ih =>
    intro fs hok
    obtain ⟨fn, f⟩ := e
    simp only [allOk, List.all_cons, Bool.and_eq_true] at hok
    obtain ⟨h1, h2⟩ := hok
    cases hs : w.fetchRaw (buildRawFileRequest c.token f.rawURL) with
    | err e0 => rw [served] at h1; rw [hs] at h1; cases h1
    | httpError st => rw [served] at h1; rw [hs] at h1; cases h1
    | ok bytes =>
      simp only [downloadFiles, hs]
      rw [ih _ h2]
      simp [entryWrites, entryPath, applyWrites_cons, served, hs, okBytes]

theorem downloadFiles_append (c : Client) (w : World) (dir : String)
    (l1 l2 : List (String × GistFile)) (fs : FS) :
    downloadFiles c w dir (l1 ++ l2) fs =
      (let r := downloadFiles c w dir l1 fs
       match r.err with
       | some _ => r
       | none =>
         let r2 := downloadFiles c w dir l2 r.fs
         { fs := r2.fs, written := r.written ++ r2.written, err := r2.err }) := by
  induction l1 generalizing fs with
  | nil => rfl
  | cons e rest ih =>
    obtain ⟨fn, f⟩ := e
    simp only [List.cons_append, downloadFiles]
    cases hs : w.fetchRaw (buildRawFileRequest c.token f.rawURL) with
    | err e0 => rfl
    | httpError st => rfl
    | ok bytes =>
      simp only [List.append_eq]
      rw [ih]
      cases h2 : (downloadFiles c w dir rest
          (fs.writeFile (dir ++ "/" ++ fn) bytes)).err <;> simp [h2]

theorem DownloadGist_spec (c : Client) (w : World)
    (ord : List (String × GistFile) → List (String × GistFile))
    (gistID directory : String) (fs : FS) (gist : Gist)
    (hg : w.getGist (buildGistRequest c.token gistID) = .ok gist)
    (hok : allOk c w (ord gist.files) = true) :
    DownloadGist c w ord gistID directory fs =
      { fs := applyWrites
            ((metaPathOf directory gistID, strBytes (marshalGist gist)) ::
              entryWrites c w (gistDirOf directory gistID) (ord gist.files))
            ((fs.mkdirAll directory).mkdirAll (gistDirOf directory gistID))
        written := metaPathOf directory gistID ::
            (ord gist.files).map (entryPath (gistDirOf directory gistID))
        err := none } := by
  simp only [DownloadGist, hg]
  rw [downloadFiles_spec _ _ _ _ _ hok]
  simp [applyWrites_cons, gistDirOf, metaPathOf]

theorem DownloadGist_dirs_mono (c : Client) (w : World)
    (ord : List (String × GistFile) → List (String × GistFile))
    (gistID directory : String) (fs : FS) {d : String} (h : d ∈ fs.dirs) :
    d ∈ (DownloadGist c w ord gistID directory fs).fs.dirs := by
  rw [DownloadGist]
  cases hg : w.getGist (buildGistRequest c.token gistID) with
  | err e => simp [FS.mkdirAll, mem_insertDir, h]
  | httpError st => simp [FS.mkdirAll, mem_insertDir, h]
  | ok gist =>
    simp only [downloadFiles_dirs, FS.writeFile, FS.mkdirAll]
    simp [downloadFiles_dirs, FS.writeFile, FS.mkdirAll, mem_insertDir, h]

theorem downloadFiles_canonical (c : Client) (w : World) (dir : String)
    (entries : List (String × GistFile)) {fs : FS} (h : fs.Canonical) :
    (downloadFiles c w dir entries fs).fs.Canonical := by
  induction entries generalizing fs with
  | nil => exact h
  | cons e rest ih =>
    obtain ⟨fn, f⟩ := e
    cases hr : w.fetchRaw (buildRawFileRequest c.token f.rawURL) with
    | err e0 => simpa [downloadFiles, hr] using h
    | httpError st => simpa [downloadFiles, hr] using h
    | ok bytes =>
      simp only [downloadFiles, hr]
      exact ih (canonical_writeFile _ _ h)

theorem DownloadGist_canonical (c : Client) (w : World)
    (ord : List (String × GistFile) → List (String × GistFile))
    (gistID directory : String) {fs : FS} (h : fs.Canonical) :
    (DownloadGist c w ord gistID directory fs).fs.Canonical := by
  rw [DownloadGist]
  cases hg : w.getGist (buildGistRequest c.token gistID) with
  | err e => exact canonical_mkdirAll directory h
  | httpError st => exact canonical_mkdirAll directory h
  | ok gist =>
    exact downloadFiles_canonical c w _ _
      (canonical_writeFile _ _ (canonical_mkdirAll _ (canonical_mkdirAll _ h)))

theorem downloadGists_append (c : Client) (w : World)
    (ord : List (String × GistFile) → List (String × GistFile))
    (userDir : String) (l1 l2 : List Gist) (fs : FS) :
    downloadGists c w ord userDir (l1 ++ l2) fs =
      (let r := downloadGists c w ord userDir l1 fs
       match r.2 with
       | some _ => r
       | none => downloadGists c w ord userDir l2 r.1) := by
  induction l1 generalizing fs with
  | nil => rfl
  | cons g rest ih =>
    simp only [List.cons_append, downloadGists]
    cases he : (DownloadGist c w ord g.id userDir fs).err with
    | some e => rfl
    | none =>
      simp only [List.append_eq]
      rw [ih]

theorem downloadGists_dirs_mono (c : Client) (w : World)
    (ord : List (String × GistFile) → List (String × GistFile))
    (userDir : String) (gists : List Gist) (fs : FS) {d : String}
    (h : d ∈ fs.dirs) :
    d ∈ (downloadGists c w ord userDir gists fs).1.dirs := by
  induction gists generalizing fs with
  | nil => exact h
  | cons g rest ih =>
    simp only [downloadGists]
    cases he : (DownloadGist c w ord g.id userDir fs).err with
    | some e =>
      simpa using DownloadGist_dirs_mono c w ord g.id userDir fs h
    | none =>
      simpa using ih _ (DownloadGist_dirs_mono c w ord g.id userDir fs h)

theorem allOk_perm (c : Client) (w : World)
    {l1 l2 : List (String × GistFile)} (hp : l1.Perm l2) :
    allOk c w l1 = allOk c w l2 := by
  unfold allOk
  rw [Bool.eq_iff_iff, List.all_eq_true, List.all_eq_true]
  exact ⟨fun h x hx => h x (hp.mem_iff.mpr hx),
    fun h x hx => h x (hp.mem_iff.mp hx)⟩

theorem downloadFiles_content_irrelevant (c : Client) (w : World) (dir : String)
    (entries : List (String × GistFile)) (fs : FS) :
    downloadFiles c w dir
        (entries.map (fun e => (e.1, { e.2 with content := "" }))) fs
      = downloadFiles c w dir entries fs := by
  induction entries generalizing fs with
  | nil => rfl
  | cons e rest ih =>
    obtain ⟨fn, f⟩ := e
    simp only [List.map_cons, downloadFiles]
    cases hr : w.fetchRaw (buildRawFileRequest c.token f.rawURL) <;> simp [hr, ih]

theorem DownloadGist_read_entry (c : Client) (w : World)
    (ord : List (String × GistFile) → List (String × GistFile))
    (gistID directory : String) (fs : FS) (gist : Gist)
    (hg : w.getGist (buildGistRequest c.token gistID) = .ok gist)
    (hn : (gist.files.map Prod.fst).Nodup)
    (hok : allOk c w (ord gist.files) = true)
    (hp : (ord gist.files).Perm gist.files)
    {e : String × GistFile} (he : e ∈ gist.files) {bytes : List Nat}
    (hb : w.fetchRaw (buildRawFileRequest c.token e.2.rawURL) = .ok bytes) :
    (DownloadGist c w ord gistID directory fs).fs.read
        (entryPath (gistDirOf directory gistID) e) = some bytes := by
  rw [DownloadGist_spec c w ord gistID directory fs gist hg hok]
  rw [read_applyWrites]
  have hnord : ((ord gist.files).map Prod.fst).Nodup :=
    ((hp.map Prod.fst).nodup_iff).mpr hn
  have hkeys : ((entryWrites c w (gistDirOf directory gistID)
      (ord gist.files)).map Prod.fst).Nodup := by
    rw [entryWrites_keys]
    exact entryPaths_nodup hnord
  have hmem : (entryPath (gistDirOf directory gistID) e,
      okBytes [] (served c w e.2))
      ∈ entryWrites c w (gistDirOf directory gistID) (ord gist.files) :=
    List.mem_map.mpr ⟨e, hp.mem_iff.mpr he, rfl⟩
  have hbytes : okBytes [] (served c w e.2) = bytes := by
    rw [served, hb]
    rfl
  rw [hbytes] at hmem
  have hlook : lookupFile (entryPath (gistDirOf directory gistID) e)
      (entryWrites c w (gistDirOf directory gistID) (ord gist.files))
      = some bytes :=
    lookupFile_eq_some_of_mem hkeys hmem
  have hlast : lastWrite (entryPath (gistDirOf directory gistID) e)
      (entryWrites c w (gistDirOf directory gistID) (ord gist.files))
      = some bytes := by
    rw [lastWrite_eq_lookupFile hkeys]
    exact hlook
  simp [lastWrite, hlast]

/-! ## The claims -/

set_option maxRecDepth 10000

/-- C10: `NewClient(token, httpClient)` returns a `Client` holding exactly
the given token and HTTP client; when `httpClient` is nil it substitutes a
default HTTP client with a 30-second timeout, so the returned client's
transport is never nil (in the model, the `httpClient` field is total). -/
theorem c10_new_client :
    ∀ (token : String) (o : Option HTTPClientModel),
      (NewClient token o).token = token ∧
      (NewClient token o).httpClient =
        (match o with
         | none => { timeoutSeconds := 30 }
         | some hc => hc) := by
  intro token o
  cases o <;> exact ⟨rfl, rfl⟩

/-- C6 fails as stated: the per-file raw-content request carries no
`Accept` header at all — cmd.go lines 212-219 set only the conditional
`Authorization` header on it, never `Accept`. -/
theorem c6_counterexample :
    headerVal "Accept" (buildRawFileRequest "t0ken" "https://gist.test/raw/a")
      = none := by
  decide

/-- C6 (amended): the gist-list and single-gist requests declare
`Accept: application/vnd.github+json`; the raw-content request sets no
`Accept` header; and all three attach `Authorization: token <token>`
exactly when a token is configured (no `Authorization` header when the
token is empty). -/
theorem c6_headers :
    ∀ (token username gistID rawURL : String),
      headerVal "Accept" (buildListRequest token username)
        = some "application/vnd.github+json" ∧
      headerVal "Accept" (buildGistRequest token gistID)
        = some "application/vnd.github+json" ∧
      headerVal "Accept" (buildRawFileRequest token rawURL) = none ∧
      (headerVal "Authorization" (buildListRequest token username)
        = if token = "" then none else some ("token " ++ token)) ∧
      (headerVal "Authorization" (buildGistRequest token gistID)
        = if token = "" then none else some ("token " ++ token)) ∧
      (headerVal "Authorization" (buildRawFileRequest token rawURL)
        = if token = "" then none else some ("token " ++ token)) := by
  intro token username gistID rawURL
  by_cases ht : token = "" <;>
    simp [headerVal, buildListRequest, buildGistRequest, buildRawFileRequest,
      authHeaders, ht]

/-- C2: if the gist-list call fails — transport or decode error, or a
non-200 status — then `DownloadAllGistsForUser` returns an error and the
filesystem is returned exactly as it was given (so in particular
`directory/username` has not been created: the list call happens before any
filesystem operation). -/
theorem c2_list_failure_leaves_fs_unchanged
    (c : Client) (w : World)
    (ord : List (String × GistFile) → List (String × GistFile))
    (username directory : String) (fs : FS) :
    (∀ e, w.listGists (buildListRequest c.token username) = .err e →
      DownloadAllGistsForUser c w ord username directory fs = (fs, some e)) ∧
    (∀ st, w.listGists (buildListRequest c.token username) = .httpError st →
      DownloadAllGistsForUser c w ord username directory fs
        = (fs, some (.msg ("GitHub API error: " ++ st)))) := by
  constructor
  · intro e h
    simp [DownloadAllGistsForUser, GetGistsForUser, h]
  · intro st h
    simp [DownloadAllGistsForUser, GetGistsForUser, h]

/-- Witness for C2: with the list round trip failing at the transport
level, the call returns that error and the filesystem (here empty, with no
`backups/alice` directory) is untouched. -/
theorem c2_witness :
    DownloadAllGistsForUser cAnon wListDown id "alice" "backups" emptyFS
      = (emptyFS, some (.msg "dial tcp: connection refused")) :=
  (c2_list_failure_leaves_fs_unchanged cAnon wListDown id
    "alice" "backups" emptyFS).1 (.msg "dial tcp: connection refused") rfl

/-- C8 fails as stated: a transport error from the gist-list round trip is
propagated out of `DownloadAllGistsForUser` as exactly the original error
value — no context about the gist, file or operation is added anywhere on
the way (cmd.go lines 137-140 and 252-255 both `return err` unchanged). -/
theorem c8_counterexample :
    (DownloadAllGistsForUser cAnon wListDown id "alice" "backups" emptyFS).2
      = some (.msg "dial tcp: connection refused") := by
  decide

/-- C8 (amended): exactly two constructions add context — a non-200 status
is turned into a message naming the failed operation (`GitHub API error:
<status>` for the list and detail calls, `Failed to download file
<filename>: <status>` for a raw fetch), and the per-gist loop of
`DownloadAllGistsForUser` wraps a failed gist's error with that gist's ID.
Every other error — the transport or the JSON decoder failing on the list
call, the detail call, or a raw fetch — is propagated to the immediate
caller unchanged, with no added context. -/
theorem c8_error_context
    (c : Client) (w : World)
    (ord : List (String × GistFile) → List (String × GistFile))
    (username directory gistID dir : String) (fs : FS) :
    (∀ e, w.listGists (buildListRequest c.token username) = .err e →
      (DownloadAllGistsForUser c w ord username directory fs).2 = some e) ∧
    (∀ st, w.listGists (buildListRequest c.token username) = .httpError st →
      (DownloadAllGistsForUser c w ord username directory fs).2
        = some (.msg ("GitHub API error: " ++ st))) ∧
    (∀ e, w.getGist (buildGistRequest c.token gistID) = .err e →
      (DownloadGist c w ord gistID directory fs).err = some e) ∧
    (∀ st, w.getGist (buildGistRequest c.token gistID) = .httpError st →
      (DownloadGist c w ord gistID directory fs).err
        = some (.msg ("GitHub API error: " ++ st))) ∧
    (∀ (fn : String) (f : GistFile) (rest : List (String × GistFile))
        (e : GoError),
      w.fetchRaw (buildRawFileRequest c.token f.rawURL) = .err e →
      (downloadFiles c w dir ((fn, f) :: rest) fs).err = some e) ∧
    (∀ (fn : String) (f : GistFile) (rest : List (String × GistFile))
        (st : String),
      w.fetchRaw (buildRawFileRequest c.token f.rawURL) = .httpError st →
      (downloadFiles c w dir ((fn, f) :: rest) fs).err
        = some (.msg ("Failed to download file " ++ fn ++ ": " ++ st))) ∧
    (∀ (g : Gist) (rest : List Gist) (e : GoError),
      (DownloadGist c w ord g.id directory fs).err = some e →
      downloadGists c w ord directory (g :: rest) fs
        = ((DownloadGist c w ord g.id directory fs).fs,
            some (.wrap ("Failed to download gist " ++ g.id) e))) := by
  refine ⟨?_, ?_, ?_, ?_, ?_, ?_, ?_⟩
  · intro e h
    simp [DownloadAllGistsForUser, GetGistsForUser, h]
  · intro st h
    simp [DownloadAllGistsForUser, GetGistsForUser, h]
  · intro e h
    simp [DownloadGist, h]
  · intro st h
    simp [DownloadGist, h]
  · intro fn f rest e h
    simp [downloadFiles, h]
  · intro fn f rest st h
    simp [downloadFiles, h]
  · intro g rest e h
    simp [downloadGists, h]

/-- Witness for C8 at concrete inputs: the raw fetch of `b.txt` answering
404 makes the per-file loop fail with the filename-naming message, and the
detail fetch of gist `g2` answering 500 makes the per-gist loop return
that error wrapped with the gist ID. -/
theorem c8_witness :
    (downloadFiles cAnon wBadB "backups/alice/g1"
        [("b.txt", fileB)] emptyFS).err
      = some (.msg "Failed to download file b.txt: 404 Not Found") ∧
    downloadGists cAnon wBadG2 id "backups/alice" [gistEmpty] emptyFS
      = ((DownloadGist cAnon wBadG2 id "g2" "backups/alice" emptyFS).fs,
          some (.wrap "Failed to download gist g2"
            (.msg "GitHub API error: 500 Internal Server Error"))) := by
  constructor
  · exact (c8_error_context cAnon wBadB id "alice" "backups/alice" "g2"
      "backups/alice/g1" emptyFS).2.2.2.2.2.1 "b.txt" fileB []
      "404 Not Found" (by decide)
  · exact (c8_error_context cAnon wBadG2 id "alice" "backups/alice" "g2"
      "backups/alice/g1" emptyFS).2.2.2.2.2.2 gistEmpty []
      (.msg "GitHub API error: 500 Internal Server Error") (by decide)

/-- C3: if every gist before the k-th downloads cleanly and the k-th
gist's download fails, `DownloadAllGistsForUser` stops there and returns
the failing gist's error wrapped as
`Failed to download gist <id>: <cause>`.  The result is computed without
ever consulting the gists after the k-th (`post` does not occur on the
right-hand side), and every directory created for the earlier gists is
still present in the final filesystem. -/
theorem c3_first_gist_failure_aborts
    (c : Client) (w : World)
    (ord : List (String × GistFile) → List (String × GistFile))
    (username directory : String) (fs : FS)
    (pre : List Gist) (g : Gist) (post : List Gist) (e : GoError)
    (hl : w.listGists (buildListRequest c.token username)
        = .ok (pre ++ g :: post))
    (hpre : (downloadGists c w ord (directory ++ "/" ++ username) pre
        (fs.mkdirAll (directory ++ "/" ++ username))).2 = none)
    (hg : (DownloadGist c w ord g.id (directory ++ "/" ++ username)
        (downloadGists c w ord (directory ++ "/" ++ username) pre
          (fs.mkdirAll (directory ++ "/" ++ username))).1).err = some e) :
    DownloadAllGistsForUser c w ord username directory fs =
      ((DownloadGist c w ord g.id (directory ++ "/" ++ username)
          (downloadGists c w ord (directory ++ "/" ++ username) pre
            (fs.mkdirAll (directory ++ "/" ++ username))).1).fs,
        some (.wrap ("Failed to download gist " ++ g.id) e)) ∧
    (∀ d ∈ (downloadGists c w ord (directory ++ "/" ++ username) pre
          (fs.mkdirAll (directory ++ "/" ++ username))).1.dirs,
      d ∈ (DownloadAllGistsForUser c w ord username directory fs).1.dirs) := by
  have hmain : DownloadAllGistsForUser c w ord username directory fs =
      ((DownloadGist c w ord g.id (directory ++ "/" ++ username)
          (downloadGists c w ord (directory ++ "/" ++ username) pre
            (fs.mkdirAll (directory ++ "/" ++ username))).1).fs,
        some (.wrap ("Failed to download gist " ++ g.id) e)) := by
    rw [DownloadAllGistsForUser]
    simp only [GetGistsForUser, hl]
    rw [downloadGists_append]
    simp only [hpre]
    rw [downloadGists]
    simp only [hg]
  refine ⟨hmain, ?_⟩
  intro d hd
  rw [hmain]
  exact DownloadGist_dirs_mono c w ord g.id _ _ hd

/-- Witness for C3: listing `g1, g2, g3` where the detail fetch of `g2`
answers 500, the run stops at `g2` with the wrapped error; `g3` is never
attempted and `g1`'s directory is still present. -/
theorem c3_witness :
    DownloadAllGistsForUser cAnon wBadG2 id "alice" "backups" emptyFS =
      ((DownloadGist cAnon wBadG2 id "g2" "backups/alice"
          (downloadGists cAnon wBadG2 id "backups/alice" [gistAB]
            (emptyFS.mkdirAll "backups/alice")).1).fs,
        some (.wrap "Failed to download gist g2"
          (.msg "GitHub API error: 500 Internal Server Error"))) ∧
    (∀ d ∈ (downloadGists cAnon wBadG2 id "backups/alice" [gistAB]
          (emptyFS.mkdirAll "backups/alice")).1.dirs,
      d ∈ (DownloadAllGistsForUser cAnon wBadG2 id "alice" "backups"
            emptyFS).1.dirs) := by
  have h := c3_first_gist_failure_aborts cAnon wBadG2 id "alice" "backups"
    emptyFS [gistAB] gistEmpty [gistC]
    (.msg "GitHub API error: 500 Internal Server Error")
    (by decide) (by decide) (by decide)
  exact h

/-- C4: if the raw fetch of one file of a gist answers a non-200 status
while everything before it succeeded, `DownloadGist` returns the error
`Failed to download file <filename>: <status>` naming that filename, and
the write trace ends at the failure: `metadata.json` and the files before
the failing one (which may remain on disk), and nothing after it. -/
theorem c4_raw_fetch_failure_stops_gist
    (c : Client) (w : World)
    (ord : List (String × GistFile) → List (String × GistFile))
    (gistID directory : String) (fs : FS) (gist : Gist)
    (pre : List (String × GistFile)) (fn : String) (f : GistFile)
    (post : List (String × GistFile)) (st : String)
    (hg : w.getGist (buildGistRequest c.token gistID) = .ok gist)
    (hord : ord gist.files = pre ++ (fn, f) :: post)
    (hpre : allOk c w pre = true)
    (hf : w.fetchRaw (buildRawFileRequest c.token f.rawURL) = .httpError st) :
    (DownloadGist c w ord gistID directory fs).err
        = some (.msg ("Failed to download file " ++ fn ++ ": " ++ st)) ∧
    (DownloadGist c w ord gistID directory fs).written
        = metaPathOf directory gistID ::
            pre.map (entryPath (gistDirOf directory gistID)) := by
  rw [DownloadGist]
  simp only [hg]
  rw [hord, downloadFiles_append, downloadFiles_spec c w _ pre _ hpre]
  simp only []
  rw [downloadFiles]
  simp only [hf]
  simp [metaPathOf, gistDirOf]

/-- Witness for C4: downloading `g1` when the raw fetch of `b.txt` answers
404: the error names `b.txt`, and the trace contains `metadata.json` and
`a.txt` only. -/
theorem c4_witness :
    (DownloadGist cAnon wBadB id "g1" "backups/alice" emptyFS).err
        = some (.msg "Failed to download file b.txt: 404 Not Found") ∧
    (DownloadGist cAnon wBadB id "g1" "backups/alice" emptyFS).written
        = ["backups/alice/g1/metadata.json", "backups/alice/g1/a.txt"] := by
  have h := c4_raw_fetch_failure_stops_gist cAnon wBadB id "g1"
    "backups/alice" emptyFS gistAB [("a.txt", fileA)] "b.txt" fileB [] 
    "404 Not Found" (by decide) (by decide) (by decide) (by decide)
  exact h

/-- C5 fails as stated: the per-file loop is `range` over a Go map, whose
iteration order is unspecified — it need not be the order of the file
mapping in the API response.  Reversal is a permutation of the decoded
map's entries, hence a possible iteration order, and under it gist `g1`'s
files are written `b.txt` before `a.txt`, not in the response order
`a.txt`, `b.txt`. -/
theorem c5_counterexample :
    (List.reverse gistAB.files).Perm gistAB.files ∧
    (DownloadGist cAnon wOk List.reverse "g1" "backups/alice" emptyFS).written
      ≠ metaPathOf "backups/alice" "g1" ::
          gistAB.files.map (entryPath (gistDirOf "backups/alice" "g1")) := by
  constructor
  · exact List.reverse_perm _
  · decide

/-- C5 (amended): `DownloadGist` fetches and writes the gist's files
strictly sequentially, one at a time — each file is fully fetched and
written before the next is touched, as the write trace shows — but in the
iteration order of the decoded file map, which is an unspecified
permutation of the API response order, not necessarily that order
itself. -/
theorem c5_sequential_in_map_iteration_order
    (c : Client) (w : World)
    (ord : List (String × GistFile) → List (String × GistFile))
    (gistID directory : String) (fs : FS) (gist : Gist)
    (hg : w.getGist (buildGistRequest c.token gistID) = .ok gist)
    (hok : allOk c w (ord gist.files) = true)
    (hp : (ord gist.files).Perm gist.files) :
    (DownloadGist c w ord gistID directory fs).written
      = metaPathOf directory gistID ::
          (ord gist.files).map (entryPath (gistDirOf directory gistID)) ∧
    (ord gist.files).Perm gist.files := by
  constructor
  · rw [DownloadGist_spec c w ord gistID directory fs gist hg hok]
  · exact hp

/-- Witness for C5 (amended) at `g1` with the reversed iteration order. -/
theorem c5_witness :
    (DownloadGist cAnon wOk List.reverse "g1" "backups/alice" emptyFS).written
      = ["backups/alice/g1/metadata.json", "backups/alice/g1/b.txt",
          "backups/alice/g1/a.txt"] ∧
    (List.reverse gistAB.files).Perm gistAB.files := by
  have h := c5_sequential_in_map_iteration_order cAnon wOk List.reverse
    "g1" "backups/alice" emptyFS gistAB (by decide) (by decide)
    (List.reverse_perm _)
  exact ⟨h.1, h.2⟩

/-- C1 fails as stated on a gist whose file mapping contains an entry
named `metadata.json` (a filename GitHub permits): `DownloadGist` first
writes the serialized record as `metadata.json` and then overwrites that
same path with the entry's raw content, so the gist directory ends up with
one file, not one-per-entry plus one `metadata.json` (here `1 + 1 = 2`),
and the serialized gist record is not on disk at all. -/
theorem c1_counterexample :
    gistMeta.files.length = 1 ∧
    (DownloadGist cAnon wOk id "gm" "backups/alice" emptyFS).err = none ∧
    (DownloadGist cAnon wOk id "gm" "backups/alice" emptyFS).fs.files.length
      = 1 ∧
    (DownloadGist cAnon wOk id "gm" "backups/alice" emptyFS).fs.read
        (metaPathOf "backups/alice" "gm") = some [91, 93] := by
  refine ⟨rfl, ?_, ?_, ?_⟩ <;> decide

/-- C1 (amended): for every gist with a non-empty file mapping in which no
entry is named `metadata.json`, a successful `DownloadGist` writes exactly
one file per mapping entry, named after its filename, plus exactly one
`metadata.json`, all inside `directory/gistID`; each entry's file holds
byte-for-byte the bytes served at that entry's raw URL, `metadata.json`
holds the serialized gist record, and no other path of the filesystem is
changed.  (If an entry is named `metadata.json`, its raw content
overwrites the metadata file and only that one file remains.) -/
theorem c1_download_writes_per_entry_plus_metadata
    (c : Client) (w : World)
    (ord : List (String × GistFile) → List (String × GistFile))
    (gistID directory : String) (fs : FS) (gist : Gist)
    (hg : w.getGist (buildGistRequest c.token gistID) = .ok gist)
    (hne : gist.files ≠ [])
    (hn : (gist.files.map Prod.fst).Nodup)
    (hm : "metadata.json" ∉ gist.files.map Prod.fst)
    (hok : allOk c w (ord gist.files) = true)
    (hp : (ord gist.files).Perm gist.files) :
    (DownloadGist c w ord gistID directory fs).err = none ∧
    (DownloadGist c w ord gistID directory fs).written
      = metaPathOf directory gistID ::
          (ord gist.files).map (entryPath (gistDirOf directory gistID)) ∧
    (DownloadGist c w ord gistID directory fs).fs.read
        (metaPathOf directory gistID)
      = some (strBytes (marshalGist gist)) ∧
    (∀ e ∈ gist.files, ∀ bytes,
      w.fetchRaw (buildRawFileRequest c.token e.2.rawURL) = .ok bytes →
      (DownloadGist c w ord gistID directory fs).fs.read
          (entryPath (gistDirOf directory gistID) e) = some bytes) ∧
    (∀ p, (DownloadGist c w ord gistID directory fs).fs.read p ≠ fs.read p →
      p = metaPathOf directory gistID ∨
        p ∈ gist.files.map (entryPath (gistDirOf directory gistID))) := by
  have spec := DownloadGist_spec c w ord gistID directory fs gist hg hok
  have hmnot : metaPathOf directory gistID
      ∉ (entryWrites c w (gistDirOf directory gistID)
          (ord gist.files)).map Prod.fst := by
    rw [entryWrites_keys]
    intro hmem
    rcases List.mem_map.mp hmem with ⟨e, he, hpath⟩
    have hfn : e.1 = "metadata.json" :=
      string_append_right_inj (gistDirOf directory gistID ++ "/") hpath
    apply hm
    rw [← hfn]
    exact List.mem_map.mpr ⟨e, hp.mem_iff.mp he, rfl⟩
  refine ⟨?_, ?_, ?_, ?_, ?_⟩
  · rw [spec]
  · rw [spec]
  · rw [spec, read_applyWrites]
    have hlE : lastWrite (metaPathOf directory gistID)
        (entryWrites c w (gistDirOf directory gistID) (ord gist.files))
        = none := lastWrite_eq_none_iff.mpr hmnot
    simp [lastWrite, hlE]
  · intro e he bytes hb
    exact DownloadGist_read_entry c w ord gistID directory fs gist
      hg hn hok hp he hb
  · intro p hdiff
    rw [spec, read_applyWrites] at hdiff
    cases hl : lastWrite p
        ((metaPathOf directory gistID, strBytes (marshalGist gist)) ::
          entryWrites c w (gistDirOf directory gistID) (ord gist.files)) with
    | none =>
      rw [hl] at hdiff
      exact absurd rfl hdiff
    | some cc =>
      have hinkeys : p ∈ ((metaPathOf directory gistID,
          strBytes (marshalGist gist)) ::
            entryWrites c w (gistDirOf directory gistID)
              (ord gist.files)).map Prod.fst := by
        by_contra hc
        rw [lastWrite_eq_none_iff.mpr hc] at hl
        cases hl
      rw [List.map_cons, List.mem_cons] at hinkeys
      rcases hinkeys with h | h
      · left; exact h
      · right
        rw [entryWrites_keys] at h
        exact (hp.map (entryPath (gistDirOf directory gistID))).mem_iff.mp h

/-- Witness for C1 (amended) at gist `g1`: the run succeeds, writes
`metadata.json`, `a.txt`, `b.txt`, and `a.txt` holds the bytes served at
its raw URL. -/
theorem c1_witness :
    (DownloadGist cAnon wOk id "g1" "backups/alice" emptyFS).err = none ∧
    (DownloadGist cAnon wOk id "g1" "backups/alice" emptyFS).written
      = ["backups/alice/g1/metadata.json", "backups/alice/g1/a.txt",
          "backups/alice/g1/b.txt"] ∧
    (DownloadGist cAnon wOk id "g1" "backups/alice" emptyFS).fs.read
        "backups/alice/g1/a.txt" = some [104, 105] := by
  have h := c1_download_writes_per_entry_plus_metadata cAnon wOk id "g1"
    "backups/alice" emptyFS gistAB (by decide) (by decide) (by decide)
    (by decide) (by decide) (List.Perm.refl _)
  exact ⟨h.1, h.2.1, h.2.2.2.1 ("a.txt", fileA) (by decide) [104, 105]
    (by decide)⟩

/-- `os.MkdirAll` on an already-present directory leaves the filesystem
unchanged. -/
theorem mkdirAll_of_mem {fs : FS} {p : String} (hs : DirsSorted fs.dirs)
    (h : p ∈ fs.dirs) : fs.mkdirAll p = fs := by
  obtain ⟨d, f⟩ := fs
  simp only [FS.mkdirAll]
  rw [insertDir_of_mem hs h]

/-- C7: running `DownloadGist` twice against the same gist ID, destination
and remote responses is idempotent: the second run (under any map
iteration order) succeeds, overwrites `metadata.json` and every file with
identical content, creates nothing new, and returns exactly the
filesystem tree left by the first run. -/
theorem c7_download_gist_idempotent
    (c : Client) (w : World)
    (ord1 ord2 : List (String × GistFile) → List (String × GistFile))
    (gistID directory : String) (fs : FS) (gist : Gist)
    (hg : w.getGist (buildGistRequest c.token gistID) = .ok gist)
    (hn : (gist.files.map Prod.fst).Nodup)
    (hok : allOk c w gist.files = true)
    (hp1 : (ord1 gist.files).Perm gist.files)
    (hp2 : (ord2 gist.files).Perm gist.files)
    (hc : fs.Canonical) :
    DownloadGist c w ord2 gistID directory
        (DownloadGist c w ord1 gistID directory fs).fs
      = { fs := (DownloadGist c w ord1 gistID directory fs).fs
          written := metaPathOf directory gistID ::
              (ord2 gist.files).map (entryPath (gistDirOf directory gistID))
          err := none } := by
  have hok1 : allOk c w (ord1 gist.files) = true := by
    rw [allOk_perm c w hp1]; exact hok
  have hok2 : allOk c w (ord2 gist.files) = true := by
    rw [allOk_perm c w hp2]; exact hok
  have spec1 := DownloadGist_spec c w ord1 gistID directory fs gist hg hok1
  rw [DownloadGist_spec c w ord2 gistID directory _ gist hg hok2, spec1]
  simp only [DLResult.mk.injEq, and_true]
  -- remaining goal: the second run returns the first run's filesystem
  have hcbase : ((fs.mkdirAll directory).mkdirAll
      (gistDirOf directory gistID)).Canonical :=
    canonical_mkdirAll _ (canonical_mkdirAll _ hc)
  have hc1 : (applyWrites
      ((metaPathOf directory gistID, strBytes (marshalGist gist)) ::
        entryWrites c w (gistDirOf directory gistID) (ord1 gist.files))
      ((fs.mkdirAll directory).mkdirAll
        (gistDirOf directory gistID))).Canonical :=
    canonical_applyWrites _ hcbase
  have hdirs1 : (applyWrites
      ((metaPathOf directory gistID, strBytes (marshalGist gist)) ::
        entryWrites c w (gistDirOf directory gistID) (ord1 gist.files))
      ((fs.mkdirAll directory).mkdirAll
        (gistDirOf directory gistID))).dirs
      = insertDir (gistDirOf directory gistID)
          (insertDir directory fs.dirs) := by
    rw [applyWrites_dirs]
    rfl
  have hmemdir : directory ∈ (applyWrites
      ((metaPathOf directory gistID, strBytes (marshalGist gist)) ::
        entryWrites c w (gistDirOf directory gistID) (ord1 gist.files))
      ((fs.mkdirAll directory).mkdirAll (gistDirOf directory gistID))).dirs := by
    rw [hdirs1]
    exact mem_insertDir.mpr (Or.inr (mem_insertDir.mpr (Or.inl rfl)))
  have hmemgd : gistDirOf directory gistID ∈ (applyWrites
      ((metaPathOf directory gistID, strBytes (marshalGist gist)) ::
        entryWrites c w (gistDirOf directory gistID) (ord1 gist.files))
      ((fs.mkdirAll directory).mkdirAll (gistDirOf directory gistID))).dirs := by
    rw [hdirs1]
    exact mem_insertDir.mpr (Or.inl rfl)
  rw [mkdirAll_of_mem hc1.1 hmemdir, mkdirAll_of_mem hc1.1 hmemgd]
  -- the second pass rewrites every path with the value it already has
  have hpE : (entryWrites c w (gistDirOf directory gistID)
      (ord2 gist.files)).Perm
        (entryWrites c w (gistDirOf directory gistID) (ord1 gist.files)) :=
    (hp2.trans hp1.symm).map _
  have hkeysE2 : ((entryWrites c w (gistDirOf directory gistID)
      (ord2 gist.files)).map Prod.fst).Nodup := by
    rw [entryWrites_keys]
    exact entryPaths_nodup ((hp2.map Prod.fst).nodup_iff.mpr hn)
  have hWeq : ∀ p, lastWrite p
      ((metaPathOf directory gistID, strBytes (marshalGist gist)) ::
        entryWrites c w (gistDirOf directory gistID) (ord2 gist.files))
      = lastWrite p
        ((metaPathOf directory gistID, strBytes (marshalGist gist)) ::
          entryWrites c w (gistDirOf directory gistID) (ord1 gist.files)) := by
    intro p
    simp only [lastWrite]
    rw [lastWrite_perm hpE hkeysE2 p]
  apply fs_ext (canonical_applyWrites _ hc1) hc1
  · rw [applyWrites_dirs]
  · intro p
    rw [read_applyWrites, hWeq p]
    cases h : lastWrite p
        ((metaPathOf directory gistID, strBytes (marshalGist gist)) ::
          entryWrites c w (gistDirOf directory gistID) (ord1 gist.files)) with
    | none => simp
    | some cc => simp [read_applyWrites, h]

/-- Witness for C7: downloading `g1` a second time (with the opposite map
iteration order) returns the same tree as the first run, rewrites the
three files, and reports no error. -/
theorem c7_witness :
    DownloadGist cAnon wOk List.reverse "g1" "backups/alice"
        (DownloadGist cAnon wOk id "g1" "backups/alice" emptyFS).fs
      = { fs := (DownloadGist cAnon wOk id "g1" "backups/alice" emptyFS).fs
          written := ["backups/alice/g1/metadata.json",
            "backups/alice/g1/b.txt", "backups/alice/g1/a.txt"]
          err := none } := by
  have h := c7_download_gist_idempotent cAnon wOk id List.reverse "g1"
    "backups/alice" emptyFS gistAB (by decide) (by decide) (by decide)
    (List.Perm.refl _) (List.reverse_perm _)
    ⟨List.Pairwise.nil, List.Pairwise.nil⟩
  exact h

/-- C9: each file written for a gist entry holds exactly the bytes served
at that entry's raw URL — the fetch `DownloadGist` performs — and the
`content` field of a `GistFile` record never influences the per-file
loop: scrubbing every inline `content` leaves the loop's behaviour
(filesystem, trace and error) unchanged. -/
theorem c9_content_from_raw_url_only
    (c : Client) (w : World)
    (ord : List (String × GistFile) → List (String × GistFile))
    (gistID directory : String) (fs : FS) (gist : Gist)
    (hg : w.getGist (buildGistRequest c.token gistID) = .ok gist)
    (hn : (gist.files.map Prod.fst).Nodup)
    (hok : allOk c w (ord gist.files) = true)
    (hp : (ord gist.files).Perm gist.files) :
    (∀ e ∈ gist.files, ∀ bytes,
      w.fetchRaw (buildRawFileRequest c.token e.2.rawURL) = .ok bytes →
      (DownloadGist c w ord gistID directory fs).fs.read
          (entryPath (gistDirOf directory gistID) e) = some bytes) ∧
    (∀ (entries : List (String × GistFile)) (dir : String) (fs2 : FS),
      downloadFiles c w dir
          (entries.map (fun e => (e.1, { e.2 with content := "" }))) fs2
        = downloadFiles c w dir entries fs2) := by
  constructor
  · intro e he bytes hb
    exact DownloadGist_read_entry c w ord gistID directory fs gist
      hg hn hok hp he hb
  · intro entries dir fs2
    exact downloadFiles_content_irrelevant c w dir entries fs2

/-- Witness for C9 at gist `g1`: `a.txt` holds the raw bytes, and the
per-file loop gives identical results with all inline contents blanked. -/
theorem c9_witness :
    (DownloadGist cAnon wOk id "g1" "backups/alice" emptyFS).fs.read
        "backups/alice/g1/a.txt" = some [104, 105] ∧
    downloadFiles cAnon wOk "backups/alice/g1"
        (gistAB.files.map (fun e => (e.1, { e.2 with content := "" }))) emptyFS
      = downloadFiles cAnon wOk "backups/alice/g1" gistAB.files emptyFS := by
  have h := c9_content_from_raw_url_only cAnon wOk id "g1" "backups/alice"
    emptyFS gistAB (by decide) (by decide) (by decide) (List.Perm.refl _)
  exact ⟨h.1 ("a.txt", fileA) (by decide) [104, 105] (by decide),
    h.2 gistAB.files "backups/alice/g1" emptyFS⟩
